import Mathlib

/-!
Verification of the `go-microservice-template` user store.

Shallow embedding of `internal/service/user_service.go`: the in-memory
`UserService` (a map from resource name to `User` plus a monotone id
counter) and its six operations `CreateUser`, `GetUser`, `ListUsers`,
`UpdateUser`, `DeleteUser`, `BatchGetUsers`.

Modelling conventions:
* The Go map `users map[string]*v1.User` is modelled as an association
  list `List (String × User)` with unique keys; Go map iteration order is
  unspecified, so no theorem below depends on the enumeration order of
  the store (only on its multiset of entries / its length).
* Timestamps (`timestamppb.Now()`) are modelled by an explicit `now : Nat`
  parameter threaded into the mutating operations.
* Machine integers: `page_size` (`int32`) and the slice offsets (`int`)
  are modelled as `Int`; `nextID` (`int`) only ever increments by one, so
  it is modelled as `Nat`.  No claim depends on wrap-around behaviour.
* A Go function that can return a gRPC error or panic is modelled with
  `GoResult`: `ok`, `err code msg` (a `status.Error`), or `panic msg`
  (a runtime panic, e.g. a slice-bounds violation).
-/

/-- gRPC status codes used by the service. -/
inductive Code where
  | InvalidArgument
  | NotFound
deriving DecidableEq, Repr

/-- Outcome of a Go handler: normal return, gRPC error, or runtime panic. -/
inductive GoResult (α : Type) where
  | ok (val : α)
  | err (code : Code) (msg : String)
  | panic (msg : String)
deriving DecidableEq, Repr

/-- The code of an error outcome, if any. -/
def GoResult.errCode {α : Type} : GoResult α → Option Code
  | .ok _ => none
  | .err c _ => some c
  | .panic _ => none

/-- The `v1.User` proto message (scalar fields of the Go struct). -/
structure User where
  name : String
  email : String
  displayName : String
  phoneNumber : String
  createTime : Nat
  updateTime : Nat
  isActive : Bool
deriving DecidableEq, Repr

/-- Lookup in the association list modelling `s.users[k]`. -/
def mapLookup (m : List (String × User)) (k : String) : Option User :=
  match m with
  | [] => none
  | (k', v) :: rest => if k' = k then some v else mapLookup rest k

/-- Insertion `s.users[k] = v` (overwrite if the key is present). -/
def mapInsert (m : List (String × User)) (k : String) (v : User) :
    List (String × User) :=
  match m with
  | [] => [(k, v)]
  | (k', v') :: rest =>
    if k' = k then (k, v) :: rest else (k', v') :: mapInsert rest k v

/-- Deletion `delete(s.users, k)`. -/
def mapDelete (m : List (String × User)) (k : String) : List (String × User) :=
  match m with
  | [] => []
  | (k', v') :: rest =>
    if k' = k then mapDelete rest k else (k', v') :: mapDelete rest k

/-- The mutable state of a `UserService`: the record map and the id counter. -/
structure ServiceState where
  users : List (String × User)
  nextID : Nat
deriving DecidableEq, Repr

/-- The constructor `NewUserService`: empty map, `nextID = 1`. -/
def NewUserService : ServiceState :=
  { users := [], nextID := 1 }

/-- Go `CreateUser`.  Here `reqUser = none` models `req.GetUser() == nil`.
Returns the stored record and the new state. -/
def CreateUser (s : ServiceState) (now : Nat) (reqUser : Option User) :
    GoResult (User × ServiceState) :=
  match reqUser with
  | none => .err .InvalidArgument "user is required"
  | some inp =>
    if inp.email = "" then .err .InvalidArgument "email is required"
    else
      let userID := Nat.repr s.nextID
      let user : User :=
        { name := "users/" ++ userID
          email := inp.email
          displayName := inp.displayName
          phoneNumber := inp.phoneNumber
          createTime := now
          updateTime := now
          isActive := true }
      .ok (user, { users := mapInsert s.users user.name user,
                   nextID := s.nextID + 1 })

/-- Go `GetUser`. -/
def GetUser (s : ServiceState) (name : String) : GoResult User :=
  if name = "" then .err .InvalidArgument "name is required"
  else
    match mapLookup s.users name with
    | none => .err .NotFound ("user " ++ name ++ " not found")
    | some user => .ok user

/-- One `case` arm of the `switch path` in `updateUserWithMask`. -/
def applyMaskPath (dst src : User) (path : String) : User :=
  if path = "email" then { dst with email := src.email }
  else if path = "display_name" then { dst with displayName := src.displayName }
  else if path = "phone_number" then { dst with phoneNumber := src.phoneNumber }
  else if path = "is_active" then { dst with isActive := src.isActive }
  else dst

/-- Go `updateUserWithMask(dst, src, mask)`: fold the switch over `mask.GetPaths()`. -/
def updateUserWithMask (dst src : User) (paths : List String) : User :=
  paths.foldl (fun d p => applyMaskPath d src p) dst

/-- The no-mask branch of `UpdateUser`: overwrite each string field only when
the incoming value is non-empty; `IsActive` unconditionally. -/
def updateAllFields (dst src : User) : User :=
  let dst := if src.email ≠ "" then { dst with email := src.email } else dst
  let dst := if src.displayName ≠ "" then { dst with displayName := src.displayName } else dst
  let dst := if src.phoneNumber ≠ "" then { dst with phoneNumber := src.phoneNumber } else dst
  { dst with isActive := src.isActive }

/-- Go `UpdateUser`.  Here `mask = none` models `req.GetUpdateMask() == nil`;
`mask = some paths` models a present (possibly empty) field mask. -/
def UpdateUser (s : ServiceState) (now : Nat) (reqUser : Option User)
    (mask : Option (List String)) : GoResult (User × ServiceState) :=
  match reqUser with
  | none => .err .InvalidArgument "user is required"
  | some src =>
    if src.name = "" then .err .InvalidArgument "user.name is required"
    else
      match mapLookup s.users src.name with
      | none => .err .NotFound ("user " ++ src.name ++ " not found")
      | some user =>
        let user' :=
          match mask with
          | some paths => updateUserWithMask user src paths
          | none => updateAllFields user src
        let user'' := { user' with updateTime := now }
        .ok (user'', { s with users := mapInsert s.users src.name user'' })

/-- Go `DeleteUser`.  Returns the new state on success. -/
def DeleteUser (s : ServiceState) (name : String) : GoResult ServiceState :=
  if name = "" then .err .InvalidArgument "name is required"
  else
    match mapLookup s.users name with
    | none => .err .NotFound ("user " ++ name ++ " not found")
    | some _ => .ok { s with users := mapDelete s.users name }

/-- The collection loop of `BatchGetUsers`: append the record for each
requested name that exists, skip missing ones. -/
def batchCollect (m : List (String × User)) : List String → List User
  | [] => []
  | n :: rest =>
    match mapLookup m n with
    | some u => u :: batchCollect m rest
    | none => batchCollect m rest

/-- Go `BatchGetUsers`. -/
def BatchGetUsers (s : ServiceState) (names : List String) :
    GoResult (List User) :=
  if names.length = 0 then .err .InvalidArgument "names is required"
  else if names.length > 1000 then
    .err .InvalidArgument "cannot retrieve more than 1000 users at once"
  else .ok (batchCollect s.users names)

/-- Go `fmt.Sscanf(tok, "%d", &start)`: skip leading spaces and tabs,
accept an optional sign, then a non-empty run of decimal digits; on any
failure (no digits, or a newline, which `Sscanf` refuses to match) the
scanned variable is left untouched (`none`).  Trailing input is ignored. -/
def sscanfD (tok : String) : Option Int :=
  let cs := tok.data.dropWhile (fun c => c == ' ' || c == '\t')
  let signAndRest : Bool × List Char :=
    match cs with
    | '-' :: rest => (true, rest)
    | '+' :: rest => (false, rest)
    | _ => (false, cs)
  let ds := signAndRest.2.takeWhile Char.isDigit
  if ds = [] then none
  else
    let v : Nat := ds.foldl (fun a c => a * 10 + (c.toNat - 48)) 0
    some (if signAndRest.1 then -(v : Int) else (v : Int))

/-- Page-size normalization at the top of `ListUsers`: default 50 when
non-positive, clamp to 1000. -/
def normalizePageSize (pageSize : Int) : Int :=
  let ps := if pageSize ≤ 0 then 50 else pageSize
  if ps > 1000 then 1000 else ps

/-- Go slice expression `l[lo:hi]` on a slice of length (and at least
capacity) `l.length`; both bounds here are at most the length by
construction at the call site, so checking against the length matches
Go's check against the capacity.  Out-of-range bounds panic. -/
def goSlice (l : List User) (lo hi : Int) : GoResult (List User) :=
  if 0 ≤ lo ∧ lo ≤ hi ∧ hi ≤ (l.length : Int) then
    .ok ((l.drop lo.toNat).take (hi - lo).toNat)
  else .panic "slice bounds out of range"

/-- The `ListUsersResponse` message. -/
structure ListUsersResponse where
  users : List User
  nextPageToken : String
  totalSize : Int
deriving DecidableEq, Repr

/-- The `start` offset of `ListUsers`: 0 unless a page token is present
and parses. -/
def listStart (pageToken : String) : Int :=
  if pageToken ≠ "" then (sscanfD pageToken).getD 0 else 0

/-- The `end` offset of `ListUsers`: `start + pageSize`, clamped to the
number of records. -/
def listStop (start ps : Int) (len : Nat) : Int :=
  if start + ps > (len : Int) then (len : Int) else start + ps

/-- Go `ListUsers`: normalize the page size, flatten the map, decode the
page token permissively (`start` stays 0 when absent or unparseable),
clamp `end` to the length, and slice `allUsers[start:end]`. -/
def ListUsers (s : ServiceState) (pageSize : Int) (pageToken : String) :
    GoResult ListUsersResponse :=
  let ps := normalizePageSize pageSize
  let allUsers := s.users.map (fun kv => kv.2)
  let start : Int := listStart pageToken
  let stop : Int := listStop start ps allUsers.length
  match goSlice allUsers start stop with
  | .ok users =>
    .ok { users := users
          nextPageToken :=
            if stop < (allUsers.length : Int) then Int.repr stop else ""
          totalSize := (allUsers.length : Int) }
  | .err c m => .err c m
  | .panic m => .panic m

/-! Operation traces.

States reachable by sequences of (successful) mutating operations; a
failed operation leaves the state unchanged, exactly as in the Go code,
where every error return happens before the first mutation. -/

/-- A mutating request: `create`, `update` (with optional mask), `delete`. -/
inductive Op where
  | create (now : Nat) (reqUser : Option User)
  | update (now : Nat) (reqUser : Option User) (mask : Option (List String))
  | delete (name : String)
deriving DecidableEq, Repr

/-- State transition of one request (failed requests do not mutate). -/
def applyOp (s : ServiceState) : Op → ServiceState
  | .create now u =>
    match CreateUser s now u with
    | .ok (_, s') => s'
    | _ => s
  | .update now u m =>
    match UpdateUser s now u m with
    | .ok (_, s') => s'
    | _ => s
  | .delete n =>
    match DeleteUser s n with
    | .ok s' => s'
    | _ => s

/-- Run a trace of requests. -/
def runOps (s : ServiceState) (ops : List Op) : ServiceState :=
  ops.foldl applyOp s

/-- The names returned by the successful `CreateUser` calls of a trace,
in order. -/
def createdNames (s : ServiceState) : List Op → List String
  | [] => []
  | op :: rest =>
    (match op with
     | .create now u =>
       match CreateUser s now u with
       | .ok (usr, _) => [usr.name]
       | _ => []
     | _ => []) ++ createdNames (applyOp s op) rest

/-- Whether a request is a `CreateUser` call that will succeed (the
outcome depends only on the request, never on the state). -/
def opCreates : Op → Bool
  | .create _ (some u) => u.email != ""
  | _ => false

/-- Numeric value of a decimal digit character. -/
def charVal (c : Char) : Nat := c.toNat - 48

/-- Decode a digit string from the right: value and weight `10 ^ length`. -/
def decodeRev : List Char → Nat × Nat
  | [] => (0, 1)
  | c :: rest =>
    let vp := decodeRev rest
    (charVal c * vp.2 + vp.1, 10 * vp.2)

/-- A request that cannot clear a stored email: any request except an
update whose mask contains `email` while the input email is empty. -/
def emailSafe : Op → Bool
  | .update _ (some src) (some paths) =>
    decide ("email" ∉ paths) || (src.email != "")
  | _ => true

/-- The invariant of C2: every stored record has a non-empty email. -/
def EmailInv (s : ServiceState) : Prop :=
  ∀ kv ∈ s.users, kv.2.email ≠ ""

/-- Input user of the C2 counterexample trace's create call. -/
def c2src : User :=
  { name := "", email := "a@b.c", displayName := "", phoneNumber := "",
    createTime := 0, updateTime := 0, isActive := false }

/-- Input user of the C2 counterexample trace's masked update call:
mask `["email"]` with an empty email. -/
def c2masked : User :=
  { name := "users/1", email := "", displayName := "", phoneNumber := "",
    createTime := 0, updateTime := 0, isActive := false }

/-- An email-safe trace used by the C2 witness: two creates, a masked
update writing a non-empty email, a no-mask update with empty strings,
and a delete. -/
def c2okOps : List Op :=
  [.create 0 (some c2src),
   .create 1 (some c2src),
   .update 2 (some { c2masked with email := "x@y.z" }) (some ["email"]),
   .update 3 (some c2masked) none,
   .delete "users/2"]

/-- The single record left in the store after running `c2okOps`. -/
def c2survivor : String × User :=
  ("users/1",
   { name := "users/1", email := "x@y.z", displayName := "",
     phoneNumber := "", createTime := 0, updateTime := 3,
     isActive := false })

/-- A concrete stored record used by witnesses. -/
def wUser : User :=
  { name := "users/1", email := "w@x.y", displayName := "W",
    phoneNumber := "1", createTime := 3, updateTime := 4, isActive := true }

/-- A concrete one-record state used by witnesses. -/
def wState : ServiceState := { users := [("users/1", wUser)], nextID := 2 }

/-! Lemmas: Association-list lemmas -/

lemma mapLookup_insert_self (m : List (String × User)) (k : String) (v : User) :
    mapLookup (mapInsert m k v) k = some v := by
  induction m with
  | nil => simp [mapInsert, mapLookup]
  | cons kv rest ih =>
    obtain ⟨k', v'⟩ := kv
    by_cases h : k' = k <;> simp [mapInsert, mapLookup, h, ih]

lemma mapLookup_delete_self (m : List (String × User)) (k : String) :
    mapLookup (mapDelete m k) k = none := by
  induction m with
  | nil => simp [mapDelete, mapLookup]
  | cons kv rest ih =>
    obtain ⟨k', v'⟩ := kv
    by_cases h : k' = k <;> simp [mapDelete, mapLookup, h, ih]

lemma mem_mapInsert {m : List (String × User)} {k : String} {v : User}
    {kv : String × User} (h : kv ∈ mapInsert m k v) : kv = (k, v) ∨ kv ∈ m := by
  induction m with
  | nil => simp [mapInsert] at h; simp [h]
  | cons kv' rest ih =>
    obtain ⟨k', v'⟩ := kv'
    by_cases hk : k' = k
    · simp [mapInsert, hk] at h
      rcases h with h | h
      · exact Or.inl (by simp [h])
      · exact Or.inr (by simp [h])
    · simp [mapInsert, hk] at h
      rcases h with h | h
      · exact Or.inr (by simp [h])
      · rcases ih h with h2 | h2
        · exact Or.inl h2
        · exact Or.inr (by simp [h2])

lemma mem_mapDelete {m : List (String × User)} {k : String}
    {kv : String × User} (h : kv ∈ mapDelete m k) : kv ∈ m := by
  induction m with
  | nil => simp [mapDelete] at h
  | cons kv' rest ih =>
    obtain ⟨k', v'⟩ := kv'
    by_cases hk : k' = k
    · simp [mapDelete, hk] at h
      exact List.mem_cons_of_mem _ (ih h)
    · simp [mapDelete, hk] at h
      rcases h with h | h
      · simp [h]
      · exact List.mem_cons_of_mem _ (ih h)

lemma mapLookup_mem {m : List (String × User)} {k : String} {v : User}
    (h : mapLookup m k = some v) : (k, v) ∈ m := by
  induction m with
  | nil => simp [mapLookup] at h
  | cons kv' rest ih =>
    obtain ⟨k', v'⟩ := kv'
    by_cases hk : k' = k
    · simp [mapLookup, hk] at h
      simp [hk, h]
    · simp [mapLookup, hk] at h
      exact List.mem_cons_of_mem _ (ih h)

/-! Lemmas: Decimal numerals: `Nat.repr` round-trip -/

lemma charVal_digitChar : ∀ m, m < 10 → charVal (Nat.digitChar m) = m := by decide

lemma decodeRev_toDigitsCore :
    ∀ (fuel n : Nat), n < fuel → ∀ (ds : List Char),
      (decodeRev (Nat.toDigitsCore 10 fuel n ds)).1
        = n * (decodeRev ds).2 + (decodeRev ds).1 := by
  intro fuel
  induction fuel with
  | zero => intro n hn; exact absurd hn (Nat.not_lt_zero n)
  | succ fuel ih =>
    intro n hn ds
    have hcv : charVal (Nat.digitChar (n % 10)) = n % 10 :=
      charVal_digitChar (n % 10) (by omega)
    simp only [Nat.toDigitsCore]
    by_cases h : n / 10 = 0
    · have hlt : n < 10 := by omega
      simp only [h, if_pos rfl]
      simp only [decodeRev, hcv]
      rw [Nat.mod_eq_of_lt hlt]
    · have hpos : 0 < n := by omega
      have hn' : n / 10 < fuel := by
        have := Nat.div_lt_self hpos (by norm_num : 1 < 10)
        omega
      rw [if_neg h, ih _ hn' (Nat.digitChar (n % 10) :: ds)]
      simp only [decodeRev, hcv]
      have hmod : n = 10 * (n / 10) + n % 10 := (Nat.div_add_mod n 10).symm
      conv_rhs => rw [hmod]
      ring

lemma decodeRev_toDigits (n : Nat) : (decodeRev (Nat.toDigits 10 n)).1 = n := by
  have := decodeRev_toDigitsCore (n + 1) n (Nat.lt_succ_self n) []
  simpa [Nat.toDigits, decodeRev] using this

/-- The resource names `users/{id}` are pairwise distinct across ids. -/
lemma usersName_injective {a b : Nat}
    (h : "users/" ++ Nat.repr a = "users/" ++ Nat.repr b) : a = b := by
  have h2 := congrArg String.data h
  rw [String.data_append, String.data_append] at h2
  have h3 : (Nat.repr a).data = (Nat.repr b).data := by
    exact List.append_cancel_left h2
  have h4 : Nat.toDigits 10 a = Nat.toDigits 10 b := h3
  have h5 := congrArg (fun l => (decodeRev l).1) h4
  simpa [decodeRev_toDigits] using h5

/-- A generated resource name is never the empty string. -/
lemma usersName_ne_empty (n : Nat) : "users/" ++ Nat.repr n ≠ "" := by
  intro h
  have h2 := congrArg String.data h
  rw [String.data_append] at h2
  simp at h2

/-! Lemmas: Field-mask characterization -/

lemma updateUserWithMask_cons (dst src : User) (p : String) (rest : List String) :
    updateUserWithMask dst src (p :: rest)
      = updateUserWithMask (applyMaskPath dst src p) src rest := rfl

lemma applyMaskPath_other_email {p : String} (dst src : User) (h : p ≠ "email") :
    (applyMaskPath dst src p).email = dst.email := by
  simp only [applyMaskPath, h, if_false]
  split_ifs <;> rfl

lemma mask_email (src : User) :
    ∀ (paths : List String) (dst : User),
      (updateUserWithMask dst src paths).email
        = if "email" ∈ paths then src.email else dst.email := by
  intro paths
  induction paths with
  | nil => intro dst; simp [updateUserWithMask]
  | cons p rest ih =>
    intro dst
    rw [updateUserWithMask_cons, ih]
    by_cases hm : "email" ∈ rest
    · simp [hm, List.mem_cons]
    · by_cases hp : p = "email"
      · subst hp
        simp [hm, List.mem_cons, applyMaskPath]
      · simp [hm, List.mem_cons, Ne.symm hp, applyMaskPath_other_email dst src hp]

lemma applyMaskPath_other_displayName {p : String} (dst src : User)
    (h : p ≠ "display_name") : (applyMaskPath dst src p).displayName = dst.displayName := by
  simp only [applyMaskPath, h]
  split_ifs <;> first | rfl | contradiction

lemma applyMaskPath_other_phoneNumber {p : String} (dst src : User)
    (h : p ≠ "phone_number") : (applyMaskPath dst src p).phoneNumber = dst.phoneNumber := by
  simp only [applyMaskPath, h]
  split_ifs <;> first | rfl | contradiction

lemma applyMaskPath_other_isActive {p : String} (dst src : User)
    (h : p ≠ "is_active") : (applyMaskPath dst src p).isActive = dst.isActive := by
  simp only [applyMaskPath, h]
  split_ifs <;> first | rfl | contradiction

lemma applyMaskPath_name (dst src : User) (p : String) :
    (applyMaskPath dst src p).name = dst.name := by
  simp only [applyMaskPath]
  split_ifs <;> rfl

lemma applyMaskPath_createTime (dst src : User) (p : String) :
    (applyMaskPath dst src p).createTime = dst.createTime := by
  simp only [applyMaskPath]
  split_ifs <;> rfl

lemma applyMaskPath_updateTime (dst src : User) (p : String) :
    (applyMaskPath dst src p).updateTime = dst.updateTime := by
  simp only [applyMaskPath]
  split_ifs <;> rfl

lemma mask_displayName (src : User) :
    ∀ (paths : List String) (dst : User),
      (updateUserWithMask dst src paths).displayName
        = if "display_name" ∈ paths then src.displayName else dst.displayName := by
  intro paths
  induction paths with
  | nil => intro dst; simp [updateUserWithMask]
  | cons p rest ih =>
    intro dst
    rw [updateUserWithMask_cons, ih]
    by_cases hm : "display_name" ∈ rest
    · simp [hm, List.mem_cons]
    · by_cases hp : p = "display_name"
      · subst hp
        simp [hm, List.mem_cons, applyMaskPath]
      · simp [hm, List.mem_cons, Ne.symm hp,
          applyMaskPath_other_displayName dst src hp]

lemma mask_phoneNumber (src : User) :
    ∀ (paths : List String) (dst : User),
      (updateUserWithMask dst src paths).phoneNumber
        = if "phone_number" ∈ paths then src.phoneNumber else dst.phoneNumber := by
  intro paths
  induction paths with
  | nil => intro dst; simp [updateUserWithMask]
  | cons p rest ih =>
    intro dst
    rw [updateUserWithMask_cons, ih]
    by_cases hm : "phone_number" ∈ rest
    · simp [hm, List.mem_cons]
    · by_cases hp : p = "phone_number"
      · subst hp
        simp [hm, List.mem_cons, applyMaskPath]
      · simp [hm, List.mem_cons, Ne.symm hp,
          applyMaskPath_other_phoneNumber dst src hp]

lemma mask_isActive (src : User) :
    ∀ (paths : List String) (dst : User),
      (updateUserWithMask dst src paths).isActive
        = if "is_active" ∈ paths then src.isActive else dst.isActive := by
  intro paths
  induction paths with
  | nil => intro dst; simp [updateUserWithMask]
  | cons p rest ih =>
    intro dst
    rw [updateUserWithMask_cons, ih]
    by_cases hm : "is_active" ∈ rest
    · simp [hm, List.mem_cons]
    · by_cases hp : p = "is_active"
      · subst hp
        simp [hm, List.mem_cons, applyMaskPath]
      · simp [hm, List.mem_cons, Ne.symm hp,
          applyMaskPath_other_isActive dst src hp]

lemma mask_name (src : User) :
    ∀ (paths : List String) (dst : User),
      (updateUserWithMask dst src paths).name = dst.name := by
  intro paths
  induction paths with
  | nil => intro dst; simp [updateUserWithMask]
  | cons p rest ih =>
    intro dst
    rw [updateUserWithMask_cons, ih, applyMaskPath_name]

lemma mask_createTime (src : User) :
    ∀ (paths : List String) (dst : User),
      (updateUserWithMask dst src paths).createTime = dst.createTime := by
  intro paths
  induction paths with
  | nil => intro dst; simp [updateUserWithMask]
  | cons p rest ih =>
    intro dst
    rw [updateUserWithMask_cons, ih, applyMaskPath_createTime]

/-! Lemmas: No-mask update characterization -/

lemma updateAllFields_email (dst src : User) :
    (updateAllFields dst src).email
      = if src.email ≠ "" then src.email else dst.email := by
  simp only [updateAllFields]
  split_ifs <;> rfl

lemma updateAllFields_displayName (dst src : User) :
    (updateAllFields dst src).displayName
      = if src.displayName ≠ "" then src.displayName else dst.displayName := by
  simp only [updateAllFields]
  split_ifs <;> rfl

lemma updateAllFields_phoneNumber (dst src : User) :
    (updateAllFields dst src).phoneNumber
      = if src.phoneNumber ≠ "" then src.phoneNumber else dst.phoneNumber := by
  simp only [updateAllFields]
  split_ifs <;> rfl

lemma updateAllFields_isActive (dst src : User) :
    (updateAllFields dst src).isActive = src.isActive := by
  simp only [updateAllFields]

lemma updateAllFields_name (dst src : User) :
    (updateAllFields dst src).name = dst.name := by
  simp only [updateAllFields]
  split_ifs <;> rfl

lemma updateAllFields_createTime (dst src : User) :
    (updateAllFields dst src).createTime = dst.createTime := by
  simp only [updateAllFields]
  split_ifs <;> rfl

/-! Lemmas: `UpdateUser` unfolding on a found record -/

lemma UpdateUser_found_mask {s : ServiceState} {src stored : User}
    {paths : List String} (now : Nat)
    (hname : src.name ≠ "") (hfound : mapLookup s.users src.name = some stored) :
    UpdateUser s now (some src) (some paths)
      = .ok ({ updateUserWithMask stored src paths with updateTime := now },
             { s with
                users :=
                  mapInsert s.users src.name
                    ({ updateUserWithMask stored src paths with
                        updateTime := now }) }) := by
  simp [UpdateUser, hname, hfound]

lemma UpdateUser_found_nomask {s : ServiceState} {src stored : User} (now : Nat)
    (hname : src.name ≠ "") (hfound : mapLookup s.users src.name = some stored) :
    UpdateUser s now (some src) none
      = .ok ({ updateAllFields stored src with updateTime := now },
             { s with
                users :=
                  mapInsert s.users src.name
                    ({ updateAllFields stored src with
                        updateTime := now }) }) := by
  simp [UpdateUser, hname, hfound]

/-- C1: the claim says ListUsers never fails on validation and an
out-of-range offset yields an empty slice; in fact an offset beyond the
record count reaches `allUsers[start:end]` with `start > end` (only `end`
is clamped), a runtime panic: on an empty store with page token "1" the
call panics instead of returning an empty slice. -/
theorem C1_out_of_range_offset_panics :
    ListUsers NewUserService 50 "1" = .panic "slice bounds out of range" := rfl

/-- C3: Create→Get round-trip. -/
theorem C3_create_get_roundtrip (s : ServiceState) (now : Nat) (inp : User)
    (hemail : inp.email ≠ "") :
    ∃ (created : User) (s2 : ServiceState),
      CreateUser s now (some inp) = .ok (created, s2) ∧
      GetUser s2 created.name = .ok created ∧
      created.email = inp.email ∧
      created.displayName = inp.displayName ∧
      created.phoneNumber = inp.phoneNumber ∧
      created.createTime = created.updateTime ∧
      created.isActive = true := by
  refine ⟨{ name := "users/" ++ Nat.repr s.nextID, email := inp.email,
            displayName := inp.displayName, phoneNumber := inp.phoneNumber,
            createTime := now, updateTime := now, isActive := true },
          { users := mapInsert s.users ("users/" ++ Nat.repr s.nextID)
              { name := "users/" ++ Nat.repr s.nextID, email := inp.email,
                displayName := inp.displayName, phoneNumber := inp.phoneNumber,
                createTime := now, updateTime := now, isActive := true },
            nextID := s.nextID + 1 },
          ?_, ?_, rfl, rfl, rfl, rfl, rfl⟩
  · simp [CreateUser, hemail]
  · simp [GetUser, usersName_ne_empty s.nextID, mapLookup_insert_self]

/-- C3 witness. -/
theorem C3_create_get_roundtrip_witness :
    ∃ (created : User) (s2 : ServiceState),
      CreateUser NewUserService 7
          (some { name := "", email := "a@b.c", displayName := "D",
                  phoneNumber := "555", createTime := 0, updateTime := 0,
                  isActive := false }) = .ok (created, s2) ∧
      GetUser s2 created.name = .ok created ∧
      created.email = "a@b.c" ∧
      created.displayName = "D" ∧
      created.phoneNumber = "555" ∧
      created.createTime = created.updateTime ∧
      created.isActive = true :=
  C3_create_get_roundtrip NewUserService 7
    { name := "", email := "a@b.c", displayName := "D", phoneNumber := "555",
      createTime := 0, updateTime := 0, isActive := false } (by decide)

/-- C6: after a successful delete, Get and a second Delete on the same
name both fail with NotFound; Delete on an empty name is InvalidArgument. -/
theorem C6_delete_then_get (s s' : ServiceState) (name : String) :
    (DeleteUser s name = .ok s' →
       GetUser s' name = .err .NotFound ("user " ++ name ++ " not found") ∧
       DeleteUser s' name = .err .NotFound ("user " ++ name ++ " not found")) ∧
    DeleteUser s "" = .err .InvalidArgument "name is required" := by
  constructor
  · intro h
    have hname : name ≠ "" := by
      intro h0
      rw [h0] at h
      simp [DeleteUser] at h
    rcases hl : mapLookup s.users name with _ | u
    · simp [DeleteUser, hname, hl] at h
    · simp [DeleteUser, hname, hl] at h
      rw [← h]
      constructor
      · simp [GetUser, hname, mapLookup_delete_self]
      · simp [DeleteUser, hname, mapLookup_delete_self]
  · simp [DeleteUser]

/-- C6 witness. -/
theorem C6_delete_then_get_witness :
    (GetUser { users := [], nextID := 2 } "users/1"
        = .err .NotFound "user users/1 not found" ∧
     DeleteUser { users := [], nextID := 2 } "users/1"
        = .err .NotFound "user users/1 not found") ∧
    DeleteUser wState "" = .err .InvalidArgument "name is required" :=
  ⟨(C6_delete_then_get wState { users := [], nextID := 2 } "users/1").1
      (by decide),
   (C6_delete_then_get wState { users := [], nextID := 2 } "users/1").2⟩

/-- C7: update without a mask overwrites the three string fields exactly
when the incoming value is non-empty, always overwrites `is_active`,
refreshes `update_time`, and leaves `name`/`create_time` unchanged. -/
theorem C7_nomask_update_policy (s : ServiceState) (now : Nat)
    (src stored : User) (hname : src.name ≠ "")
    (hfound : mapLookup s.users src.name = some stored) :
    ∃ (updated : User) (s2 : ServiceState),
      UpdateUser s now (some src) none = .ok (updated, s2) ∧
      updated.email = (if src.email ≠ "" then src.email else stored.email) ∧
      updated.displayName
        = (if src.displayName ≠ "" then src.displayName else stored.displayName) ∧
      updated.phoneNumber
        = (if src.phoneNumber ≠ "" then src.phoneNumber else stored.phoneNumber) ∧
      updated.isActive = src.isActive ∧
      updated.updateTime = now ∧
      updated.name = stored.name ∧
      updated.createTime = stored.createTime := by
  refine ⟨_, _, UpdateUser_found_nomask now hname hfound, ?_, ?_, ?_, ?_, rfl,
    ?_, ?_⟩
  · simp [updateAllFields_email]
  · simp [updateAllFields_displayName]
  · simp [updateAllFields_phoneNumber]
  · simp [updateAllFields_isActive]
  · simp [updateAllFields_name]
  · simp [updateAllFields_createTime]

/-- C7 witness: empty-string email is kept, is_active overwritten to false. -/
theorem C7_nomask_update_policy_witness :
    ∃ (updated : User) (s2 : ServiceState),
      UpdateUser wState 9
          (some { name := "users/1", email := "", displayName := "New",
                  phoneNumber := "", createTime := 0, updateTime := 0,
                  isActive := false }) none = .ok (updated, s2) ∧
      updated.email = (if ("" : String) ≠ "" then "" else wUser.email) ∧
      updated.displayName = (if ("New" : String) ≠ "" then "New" else wUser.displayName) ∧
      updated.phoneNumber = (if ("" : String) ≠ "" then "" else wUser.phoneNumber) ∧
      updated.isActive = false ∧
      updated.updateTime = 9 ∧
      updated.name = wUser.name ∧
      updated.createTime = wUser.createTime :=
  C7_nomask_update_policy wState 9
    { name := "users/1", email := "", displayName := "New", phoneNumber := "",
      createTime := 0, updateTime := 0, isActive := false } wUser
    (by decide) (by decide)

/-- C8: update with a mask copies exactly the recognized paths named in
the mask (always overwriting, even with an empty value); unrecognized
paths and an empty path list copy nothing; unnamed fields keep their
prior values; `name`/`create_time` are unchanged and `update_time` is
refreshed. -/
theorem C8_field_mask_selectivity (s : ServiceState) (now : Nat)
    (src stored : User) (paths : List String) (hname : src.name ≠ "")
    (hfound : mapLookup s.users src.name = some stored) :
    ∃ (updated : User) (s2 : ServiceState),
      UpdateUser s now (some src) (some paths) = .ok (updated, s2) ∧
      updated.email = (if "email" ∈ paths then src.email else stored.email) ∧
      updated.displayName
        = (if "display_name" ∈ paths then src.displayName else stored.displayName) ∧
      updated.phoneNumber
        = (if "phone_number" ∈ paths then src.phoneNumber else stored.phoneNumber) ∧
      updated.isActive
        = (if "is_active" ∈ paths then src.isActive else stored.isActive) ∧
      updated.updateTime = now ∧
      updated.name = stored.name ∧
      updated.createTime = stored.createTime := by
  refine ⟨_, _, UpdateUser_found_mask now hname hfound, ?_, ?_, ?_, ?_, rfl,
    ?_, ?_⟩
  · simp [mask_email]
  · simp [mask_displayName]
  · simp [mask_phoneNumber]
  · simp [mask_isActive]
  · simp [mask_name]
  · simp [mask_createTime]

/-- C8 witness: the spec's own example, mask `["display_name"]` with a
changed email in the input leaves `email` at its prior value, plus an
unrecognized path that is ignored. -/
theorem C8_field_mask_selectivity_witness :
    ∃ (updated : User) (s2 : ServiceState),
      UpdateUser wState 9
          (some { name := "users/1", email := "new@x.com",
                  displayName := "New", phoneNumber := "", createTime := 0,
                  updateTime := 0, isActive := false })
          (some ["display_name", "bogus"]) = .ok (updated, s2) ∧
      updated.email
        = (if "email" ∈ ["display_name", "bogus"] then "new@x.com" else wUser.email) ∧
      updated.displayName
        = (if "display_name" ∈ ["display_name", "bogus"] then "New" else wUser.displayName) ∧
      updated.phoneNumber
        = (if "phone_number" ∈ ["display_name", "bogus"] then "" else wUser.phoneNumber) ∧
      updated.isActive
        = (if "is_active" ∈ ["display_name", "bogus"] then false else wUser.isActive) ∧
      updated.updateTime = 9 ∧
      updated.name = wUser.name ∧
      updated.createTime = wUser.createTime :=
  C8_field_mask_selectivity wState 9
    { name := "users/1", email := "new@x.com", displayName := "New",
      phoneNumber := "", createTime := 0, updateTime := 0, isActive := false }
    wUser ["display_name", "bogus"] (by decide) (by decide)

/-! Lemmas: `ListUsers` bounds -/

lemma goSlice_ok_length {l : List User} {lo hi : Int} {out : List User}
    (h : goSlice l lo hi = .ok out) : out.length ≤ (hi - lo).toNat := by
  simp only [goSlice] at h
  split_ifs at h with hc
  simp only [GoResult.ok.injEq] at h
  rw [← h]
  exact List.length_take_le _ _

lemma listStop_le (start ps : Int) (len : Nat) :
    listStop start ps len ≤ start + ps := by
  simp only [listStop]
  split_ifs <;> omega

lemma normalizePageSize_bounds (ps : Int) :
    0 < normalizePageSize ps ∧ normalizePageSize ps ≤ 1000 := by
  simp only [normalizePageSize]
  split_ifs <;> omega

/-- C5: page-size normalization and the ≤ 1000 bound on returned slices. -/
theorem C5_page_size_normalization (s : ServiceState) (ps : Int) (tok : String) :
    (ps ≤ 0 → normalizePageSize ps = 50) ∧
    (ps > 1000 → normalizePageSize ps = 1000) ∧
    (0 < ps → ps ≤ 1000 → normalizePageSize ps = ps) ∧
    (∀ resp, ListUsers s ps tok = .ok resp → resp.users.length ≤ 1000) := by
  refine ⟨?_, ?_, ?_, ?_⟩
  · intro h
    simp only [normalizePageSize]
    split_ifs <;> omega
  · intro h
    simp only [normalizePageSize]
    split_ifs <;> omega
  · intro h1 h2
    simp only [normalizePageSize]
    split_ifs <;> omega
  · intro resp h
    obtain ⟨hpos, hle⟩ := normalizePageSize_bounds ps
    simp only [ListUsers] at h
    rcases hg : goSlice (List.map (fun kv => kv.2) s.users) (listStart tok)
        (listStop (listStart tok) (normalizePageSize ps)
          (List.map (fun kv => kv.2) s.users).length) with us | ⟨c, msg⟩ | msg
    · rw [hg] at h
      simp only [GoResult.ok.injEq] at h
      have hlen := goSlice_ok_length hg
      have hstop := listStop_le (listStart tok) (normalizePageSize ps)
        (List.map (fun kv => kv.2) s.users).length
      rw [← h]
      show us.length ≤ 1000
      omega
    · rw [hg] at h
      simp at h
    · rw [hg] at h
      simp at h

/-- C5 witness: `page_size = 5000` is clamped to 1000; a plain list call
returns at most 1000 records. -/
theorem C5_page_size_normalization_witness :
    normalizePageSize 5000 = 1000 ∧
    ∀ resp, ListUsers wState 5000 "" = .ok resp → resp.users.length ≤ 1000 :=
  ⟨(C5_page_size_normalization wState 5000 "").2.1 (by decide),
   (C5_page_size_normalization wState 5000 "").2.2.2⟩

/-! Lemmas: `BatchGetUsers` lemmas -/

lemma mem_batchCollect (m : List (String × User)) (u : User) :
    ∀ names : List String,
      u ∈ batchCollect m names ↔ ∃ n ∈ names, mapLookup m n = some u := by
  intro names
  induction names with
  | nil => simp [batchCollect]
  | cons n rest ih =>
    rcases hl : mapLookup m n with _ | v
    · simp only [batchCollect, hl, ih]
      constructor
      · rintro ⟨n', hn', hlook⟩
        exact ⟨n', List.mem_cons_of_mem _ hn', hlook⟩
      · rintro ⟨n', hn', hlook⟩
        rcases List.mem_cons.mp hn' with h | h
        · rw [h] at hlook
          rw [hl] at hlook
          cases hlook
        · exact ⟨n', h, hlook⟩
    · simp only [batchCollect, hl, List.mem_cons, ih]
      constructor
      · rintro (h | ⟨n', hn', hlook⟩)
        · exact ⟨n, Or.inl rfl, by rw [hl, h]⟩
        · exact ⟨n', Or.inr hn', hlook⟩
      · rintro ⟨n', hn', hlook⟩
        rcases hn' with h | h
        · rw [h, hl] at hlook
          exact Or.inl (Option.some.inj hlook).symm
        · exact Or.inr ⟨n', h, hlook⟩

lemma batchCollect_eq_filterMap (m : List (String × User)) :
    ∀ names : List String,
      batchCollect m names = names.filterMap (fun n => mapLookup m n) := by
  intro names
  induction names with
  | nil => simp [batchCollect]
  | cons n rest ih =>
    rcases hl : mapLookup m n with _ | v <;>
      simp [batchCollect, hl, ih, List.filterMap_cons]

lemma count_batchCollect (m : List (String × User)) (u : User) :
    ∀ names : List String,
      (batchCollect m names).count u
        = names.countP (fun n => mapLookup m n == some u) := by
  intro names
  induction names with
  | nil => simp [batchCollect]
  | cons n rest ih =>
    rcases hl : mapLookup m n with _ | v
    · simp [batchCollect, hl, List.countP_cons, ih]
    · simp only [batchCollect, hl, List.count_cons, List.countP_cons, ih,
        beq_iff_eq, Option.some.injEq]

lemma count_le_countP_lookup (m : List (String × User)) {n : String}
    {u : User} (h : mapLookup m n = some u) :
    ∀ names : List String,
      names.count n ≤ names.countP (fun n2 => mapLookup m n2 == some u) := by
  intro names
  induction names with
  | nil => simp
  | cons n' rest ih =>
    simp only [List.count_cons, List.countP_cons]
    by_cases hn : n' = n
    · simp [hn, h]
      omega
    · by_cases hp : mapLookup m n' = some u <;> simp [hn, hp] <;> omega

/-- C9: BatchGetUsers fails with InvalidArgument exactly on an empty or
over-1000 name list; otherwise it returns exactly the requested names
that exist, silently omitting absent ones. -/
theorem C9_batchget_contract (s : ServiceState) (names : List String) :
    (names.length = 0 →
       BatchGetUsers s names = .err .InvalidArgument "names is required") ∧
    (names.length > 1000 →
       BatchGetUsers s names
         = .err .InvalidArgument "cannot retrieve more than 1000 users at once") ∧
    (names.length ≠ 0 → names.length ≤ 1000 →
       ∃ us, BatchGetUsers s names = .ok us ∧
         ∀ u : User, u ∈ us ↔ ∃ n ∈ names, mapLookup s.users n = some u) := by
  refine ⟨?_, ?_, ?_⟩
  · intro h
    simp [BatchGetUsers, h]
  · intro h
    have h0 : names.length ≠ 0 := by omega
    simp [BatchGetUsers, h0, h]
  · intro h1 h2
    have h3 : ¬names.length > 1000 := by omega
    refine ⟨batchCollect s.users names, by simp [BatchGetUsers, h1, h3], ?_⟩
    intro u
    exact mem_batchCollect s.users u names

/-- C9 witness: one present and one absent name. -/
theorem C9_batchget_contract_witness :
    ∃ us, BatchGetUsers wState ["users/1", "users/999"] = .ok us ∧
      ∀ u : User, u ∈ us ↔
        ∃ n ∈ ["users/1", "users/999"], mapLookup wState.users n = some u :=
  (C9_batchget_contract wState ["users/1", "users/999"]).2.2 (by decide)
    (by decide)

/-- C10: on success the result lists, in request order, the record of
each request entry whose name exists (duplicated names contribute one
copy per occurrence). -/
theorem C10_batchget_order (s : ServiceState) (names : List String)
    (us : List User) (h : BatchGetUsers s names = .ok us) :
    us = names.filterMap (fun n => mapLookup s.users n) ∧
    (∀ u : User,
       us.count u = names.countP (fun n => mapLookup s.users n == some u)) ∧
    (∀ (n : String) (u : User), mapLookup s.users n = some u →
       names.count n ≤ us.count u) := by
  have hus : us = batchCollect s.users names := by
    simp only [BatchGetUsers] at h
    split_ifs at h with h1 h2
    exact (GoResult.ok.inj h).symm
  subst hus
  refine ⟨batchCollect_eq_filterMap s.users names, ?_, ?_⟩
  · intro u
    exact count_batchCollect s.users u names
  · intro n u hlook
    rw [count_batchCollect s.users u names]
    exact count_le_countP_lookup s.users hlook names

/-- C10 witness: a duplicated present name and an absent name. -/
theorem C10_batchget_order_witness :
    batchCollect wState.users ["users/1", "users/999", "users/1"]
        = ["users/1", "users/999", "users/1"].filterMap
            (fun n => mapLookup wState.users n) ∧
    (∀ u : User,
       (batchCollect wState.users ["users/1", "users/999", "users/1"]).count u
         = (["users/1", "users/999", "users/1"] : List String).countP
             (fun n => mapLookup wState.users n == some u)) ∧
    (∀ (n : String) (u : User), mapLookup wState.users n = some u →
       (["users/1", "users/999", "users/1"] : List String).count n
         ≤ (batchCollect wState.users ["users/1", "users/999", "users/1"]).count u) :=
  C10_batchget_order wState ["users/1", "users/999", "users/1"]
    (batchCollect wState.users ["users/1", "users/999", "users/1"]) (by decide)

/-! Lemmas: The email invariant over traces -/

/-- C2 counterexample: a create followed by a successful masked update
whose mask names `email` with an empty input value leaves a stored
record whose email is the empty string, so not every reachable state
has only non-empty emails. -/
theorem C2_counterexample :
    (runOps NewUserService
        [.create 0 (some c2src),
         .update 1 (some c2masked) (some ["email"])]).users.map
      (fun kv => kv.2.email) = [""] := by decide

lemma emailInv_applyOp {s : ServiceState} {op : Op} (hs : EmailInv s)
    (hop : emailSafe op = true) : EmailInv (applyOp s op) := by
  cases op with
  | create now u =>
    cases u with
    | none => simpa [applyOp, CreateUser] using hs
    | some inp =>
      by_cases he : inp.email = ""
      · simpa [applyOp, CreateUser, he] using hs
      · simp only [applyOp, CreateUser, he, if_false]
        intro kv hkv
        rcases mem_mapInsert hkv with h | h
        · rw [h]
          exact he
        · exact hs kv h
  | update now u m =>
    cases u with
    | none => simpa [applyOp, UpdateUser] using hs
    | some src =>
      by_cases hname : src.name = ""
      · simpa [applyOp, UpdateUser, hname] using hs
      · rcases hl : mapLookup s.users src.name with _ | stored
        · simpa [applyOp, UpdateUser, hname, hl] using hs
        · have hstored : stored.email ≠ "" :=
            hs (src.name, stored) (mapLookup_mem hl)
          cases m with
          | none =>
            simp only [applyOp, UpdateUser_found_nomask now hname hl]
            intro kv hkv
            rcases mem_mapInsert hkv with h | h
            · rw [h]
              show ({ updateAllFields stored src with
                        updateTime := now } : User).email ≠ ""
              rw [show ({ updateAllFields stored src with
                            updateTime := now } : User).email
                    = (updateAllFields stored src).email from rfl,
                  updateAllFields_email]
              split_ifs with hsrc
              · exact hsrc
              · exact hstored
            · exact hs kv h
          | some paths =>
            have hmask : "email" ∉ paths ∨ src.email ≠ "" := by
              simpa [emailSafe, Bool.or_eq_true, decide_eq_true_eq,
                bne_iff_ne] using hop
            simp only [applyOp, UpdateUser_found_mask now hname hl]
            intro kv hkv
            rcases mem_mapInsert hkv with h | h
            · rw [h]
              show ({ updateUserWithMask stored src paths with
                        updateTime := now } : User).email ≠ ""
              rw [show ({ updateUserWithMask stored src paths with
                            updateTime := now } : User).email
                    = (updateUserWithMask stored src paths).email from rfl,
                  mask_email]
              split_ifs with hmem
              · rcases hmask with hm | hm
                · exact absurd hmem hm
                · exact hm
              · exact hstored
            · exact hs kv h
  | delete n =>
    by_cases hn : n = ""
    · simpa [applyOp, DeleteUser, hn] using hs
    · rcases hl : mapLookup s.users n with _ | stored
      · simpa [applyOp, DeleteUser, hn, hl] using hs
      · simp only [applyOp, DeleteUser, hn, hl, if_false]
        intro kv hkv
        exact hs kv (mem_mapDelete hkv)

lemma emailInv_runOps {s : ServiceState} :
    ∀ ops : List Op, EmailInv s → ops.all emailSafe = true →
      EmailInv (runOps s ops) := by
  intro ops
  induction ops generalizing s with
  | nil => intro hs _; simpa [runOps] using hs
  | cons op rest ih =>
    intro hs hall
    rw [List.all_cons, Bool.and_eq_true] at hall
    exact ih (emailInv_applyOp hs hall.1) hall.2

/-- C2 amended: along any trace of create/update/delete requests in
which no update both masks `email` and supplies an empty email, every
stored record keeps a non-empty email. -/
theorem C2_email_invariant_amended (ops : List Op)
    (h : ops.all emailSafe = true) :
    ∀ kv ∈ (runOps NewUserService ops).users, kv.2.email ≠ "" :=
  emailInv_runOps ops (by intro kv hkv; simp [NewUserService] at hkv) h

/-- C2 amended witness: along the email-safe trace `c2okOps` the one
surviving stored record keeps its non-empty email. -/
theorem C2_email_invariant_amended_witness :
    c2survivor.2.email ≠ "" :=
  C2_email_invariant_amended c2okOps (by decide) c2survivor (by decide)

/-! Lemmas: Id allocation over traces -/

lemma UpdateUser_ok_nextID {s : ServiceState} {now : Nat} {u : Option User}
    {m : Option (List String)} {usr : User} {s' : ServiceState}
    (h : UpdateUser s now u m = .ok (usr, s')) : s'.nextID = s.nextID := by
  cases u with
  | none => simp [UpdateUser] at h
  | some src =>
    by_cases hname : src.name = ""
    · simp [UpdateUser, hname] at h
    · rcases hl : mapLookup s.users src.name with _ | stored
      · simp [UpdateUser, hname, hl] at h
      · cases m with
        | none =>
          rw [UpdateUser_found_nomask now hname hl] at h
          obtain ⟨-, h2⟩ := Prod.mk.inj (GoResult.ok.inj h)
          rw [← h2]
        | some paths =>
          rw [UpdateUser_found_mask now hname hl] at h
          obtain ⟨-, h2⟩ := Prod.mk.inj (GoResult.ok.inj h)
          rw [← h2]

lemma DeleteUser_ok_nextID {s : ServiceState} {n : String}
    {s' : ServiceState} (h : DeleteUser s n = .ok s') :
    s'.nextID = s.nextID := by
  by_cases hn : n = ""
  · simp [DeleteUser, hn] at h
  · rcases hl : mapLookup s.users n with _ | stored
    · simp [DeleteUser, hn, hl] at h
    · simp [DeleteUser, hn, hl] at h
      rw [← h]

lemma nextID_applyOp (s : ServiceState) (op : Op) :
    (applyOp s op).nextID
      = if opCreates op then s.nextID + 1 else s.nextID := by
  cases op with
  | create now u =>
    cases u with
    | none => simp [applyOp, CreateUser, opCreates]
    | some inp =>
      by_cases he : inp.email = "" <;>
        simp [applyOp, CreateUser, opCreates, he]
  | update now u m =>
    simp only [applyOp, opCreates, if_false]
    rcases h : UpdateUser s now u m with ⟨usr, s'⟩ | ⟨c, msg⟩ | msg
    · exact UpdateUser_ok_nextID h
    · rfl
    · rfl
  | delete n =>
    simp only [applyOp, opCreates, if_false]
    rcases h : DeleteUser s n with s' | ⟨c, msg⟩ | msg
    · exact DeleteUser_ok_nextID h
    · rfl
    · rfl

lemma createdNames_eq :
    ∀ (ops : List Op) (s : ServiceState),
      createdNames s ops
        = (List.range (ops.countP (fun op => opCreates op))).map
            (fun i => "users/" ++ Nat.repr (s.nextID + i)) := by
  intro ops
  induction ops with
  | nil => intro s; simp [createdNames]
  | cons op rest ih =>
    intro s
    rcases hc : opCreates op with _ | _
    · -- not a successful create: no name, counter unchanged
      have hnext : (applyOp s op).nextID = s.nextID := by
        rw [nextID_applyOp, hc]
        rfl
      have hhead :
          (match op with
           | .create now u =>
             match CreateUser s now u with
             | .ok (usr, _) => [usr.name]
             | _ => []
           | _ => ([] : List String)) = [] := by
        cases op with
        | create now u =>
          cases u with
          | none => simp [CreateUser]
          | some inp =>
            by_cases he : inp.email = ""
            · simp [CreateUser, he]
            · simp [opCreates, he] at hc
        | update now u m => rfl
        | delete n => rfl
      simp only [createdNames, hhead, List.nil_append, ih, hnext,
        List.countP_cons, hc]
      norm_num
    · -- a successful create
      obtain ⟨now, inp, hop, he⟩ :
          ∃ now inp, op = .create now (some inp) ∧ inp.email ≠ "" := by
        cases op with
        | create now u =>
          cases u with
          | none => simp [opCreates] at hc
          | some inp =>
            refine ⟨now, inp, rfl, ?_⟩
            simpa [opCreates, bne_iff_ne] using hc
        | update now u m => simp [opCreates] at hc
        | delete n => simp [opCreates] at hc
      subst hop
      simp only [createdNames, CreateUser, he, if_neg, if_false, applyOp,
        List.countP_cons, hc, cond_true, ih]
      norm_num
      rw [List.range_succ_eq_map]
      simp only [List.map_cons, List.map_map, Nat.add_zero,
        List.singleton_append]
      refine congrArg₂ _ rfl ?_
      refine List.map_congr_left ?_
      intro i _
      show "users/" ++ Nat.repr (s.nextID + 1 + i)
        = "users/" ++ Nat.repr (s.nextID + (i + 1))
      refine congrArg _ (congrArg Nat.repr (by omega))

/-- C4: along any trace, the names handed out by the successful create
calls form, in order, the sequence `users/1`, `users/2`, …, so they are
pairwise distinct, have strictly increasing numeric suffixes starting at
1, and are never reused after interleaved deletes. -/
theorem C4_id_monotonic_no_reuse (ops : List Op) :
    createdNames NewUserService ops
      = (List.range (createdNames NewUserService ops).length).map
          (fun i => "users/" ++ Nat.repr (1 + i)) ∧
    (createdNames NewUserService ops).Nodup := by
  have h := createdNames_eq ops NewUserService
  have hlen : (createdNames NewUserService ops).length
      = ops.countP (fun op => opCreates op) := by
    rw [h, List.length_map, List.length_range]
  have hinj : Function.Injective (fun i => "users/" ++ Nat.repr (1 + i)) := by
    intro a b hab
    have := usersName_injective hab
    omega
  constructor
  · rw [hlen, h]
    rfl
  · rw [h]
    exact (List.nodup_range _).map hinj
